import Mathlib

/-!
Verification of the resumable chunked file-upload subsystem of the
audiobook-web repository: the client-side chunk planner and retrying
transmitter (`packages/client/src/services/ChunkedUploader.ts`) and the
server-side upload session service and controllers
(`uploadService.ts` / `uploadController.ts`).

Client and server code is shallowly embedded: pure TypeScript functions
become Lean functions on `Nat`/`Int`/`String`/`List`; the Node.js
filesystem is an explicit state (directories plus an association list of
path ↦ bytes); fallible I/O is modelled by an explicit fault oracle on
paths; `async` methods become state-passing functions returning
`Except String` results.
-/

namespace AudiobookUpload

/-! ## Client: chunk planner (`ChunkedUploader.createChunkMetadata`) -/

/-- One entry of the client's `ChunkMetadata[]` plan:
`{index, start, end, size, retries}` (the source's `end` field is named
`endByte` here because `end` is a Lean keyword). -/
structure ChunkMetadata where
  index : Nat
  start : Nat
  endByte : Nat
  size : Nat
  retries : Nat
deriving DecidableEq, Repr

/-- `UPLOAD_CHUNK_SIZE = 1 * 1024 * 1024` (1 MiB). -/
def UPLOAD_CHUNK_SIZE : Nat := 1 * 1024 * 1024

/-- `Math.ceil(file.size / chunkSize)`, as computed in the
`ChunkedUploader` constructor (`this.totalChunks`). -/
def totalChunksOf (fileSize chunkSize : Nat) : Nat :=
  (fileSize + chunkSize - 1) / chunkSize

/-- `ChunkedUploader.createChunkMetadata`: for `i` in
`0..totalChunks-1`, `start = i * chunkSize`,
`end = min(start + chunkSize, file.size)`, `size = end - start`,
`retries = 0`. -/
def createChunkMetadata (fileSize chunkSize : Nat) : List ChunkMetadata :=
  (List.range (totalChunksOf fileSize chunkSize)).map fun i =>
    let start := i * chunkSize
    let e := min (start + chunkSize) fileSize
    { index := i, start := start, endByte := e, size := e - start, retries := 0 }

/-- `ChunkedUploader.getChunkSize`. -/
def getChunkSize (fileSize chunkSize chunkIndex : Nat) : Nat :=
  let start := chunkIndex * chunkSize
  let e := min (start + chunkSize) fileSize
  e - start

/-! ## Client: retrying transmitter (`ChunkedUploader.uploadChunkWithRetry`) -/

/-- Outcome of one attempt of `uploadChunk`: resolve, or reject with the
thrown error's `message`. -/
inductive SendResult where
  | ok
  | err (msg : String)
deriving DecidableEq, Repr

/-- What one run of the retry loop did: the final outcome, how many
`uploadChunk` attempts were issued, and the backoff delays slept (in
milliseconds, in order). -/
structure RetryOutcome where
  result : Except String Unit
  attemptsMade : Nat
  delays : List Nat
deriving Repr

/-- JavaScript `m || fallback` on strings: the empty string is falsy. -/
def jsStringOr (m fallback : String) : String :=
  if m = "" then fallback else m

/-- The message thrown when retries are exhausted:
`(error as Error).message || `Failed to upload chunk ${chunk.index} after ${maxRetries} retries``. -/
def retryFailMessage (maxRetries idx : Nat) (m : String) : String :=
  jsStringOr m
    ("Failed to upload chunk " ++ toString idx ++ " after " ++
      toString maxRetries ++ " retries")

/-- The `while (chunk.retries <= maxRetries)` loop of
`uploadChunkWithRetry`, unrolled on fuel.  `k` is the current value of
`chunk.retries` when the attempt is issued; on failure the source
increments `retries`, throws if it now exceeds `maxRetries`, and
otherwise sleeps `min(1000 * 2^(retries-1), 10000)` ms before looping. -/
def uploadChunkWithRetryGo (maxRetries idx : Nat) (attempt : Nat → SendResult) :
    Nat → Nat → RetryOutcome
  | _, 0 => { result := .ok (), attemptsMade := 0, delays := [] }
  | k, fuel + 1 =>
    match attempt k with
    | .ok => { result := .ok (), attemptsMade := 1, delays := [] }
    | .err m =>
      if maxRetries ≤ k then
        { result := .error (retryFailMessage maxRetries idx m),
          attemptsMade := 1, delays := [] }
      else
        let rest := uploadChunkWithRetryGo maxRetries idx attempt (k + 1) fuel
        { result := rest.result,
          attemptsMade := rest.attemptsMade + 1,
          delays := min (1000 * 2 ^ k) 10000 :: rest.delays }

/-- `ChunkedUploader.uploadChunkWithRetry` for a chunk whose metadata
starts with `retries = 0` (as produced by `createChunkMetadata`); the
`k`-th issued attempt's outcome is `attempt (k-1)`. -/
def uploadChunkWithRetry (maxRetries idx : Nat) (attempt : Nat → SendResult) :
    RetryOutcome :=
  uploadChunkWithRetryGo maxRetries idx attempt 0 (maxRetries + 1)

/-! ## Server: file system and session store model

A path is its list of components; `path.join(a, b)` appends a
component.  `fs/promises` is modelled as a set of directories plus an
association list of file path ↦ byte contents; transient I/O failures
are an oracle `faults : Path → Bool` saying which paths' reads/writes
throw during the call being modelled. -/

/-- A file-system path, as the list of its components. -/
abbrev Path := List String

/-- JS `Map.set` / in-place update on an association list: overwrite the
existing binding, else append a fresh one. -/
def setA {κ α : Type _} [DecidableEq κ] (l : List (κ × α)) (k : κ) (v : α) :
    List (κ × α) :=
  if l.any (fun p => p.1 = k) then
    l.map (fun p => if p.1 = k then (k, v) else p)
  else l ++ [(k, v)]

/-- JS `Map.get` on an association list. -/
def getA {κ α : Type _} [DecidableEq κ] (l : List (κ × α)) (k : κ) : Option α :=
  (l.find? (fun p => p.1 = k)).map (·.2)

/-- JS `Map.delete` on an association list. -/
def eraseA {κ α : Type _} [DecidableEq κ] (l : List (κ × α)) (k : κ) :
    List (κ × α) :=
  l.filter (fun p => ¬ p.1 = k)

/-- On-disk state: created directories and file contents (bytes as
`List Nat`). -/
structure FS where
  dirs : List Path
  files : List (Path × List Nat)
deriving DecidableEq, Repr

/-- `fs.mkdir(p, {recursive: true})` (recorded flatly; parents are
irrelevant to the claims). -/
def FS.mkdir (fs : FS) (p : Path) : FS :=
  { fs with dirs := if p ∈ fs.dirs then fs.dirs else fs.dirs ++ [p] }

/-- `fs.writeFile(p, b)` / a stream write landing at `p`: overwrite or
create. -/
def FS.writeFile (fs : FS) (p : Path) (b : List Nat) : FS :=
  { fs with files := setA fs.files p b }

/-- `fs.readFile(p)`: the bytes, or a rejection when the file is absent
or the fault oracle makes this read throw. -/
def FS.readFile (faults : Path → Bool) (fs : FS) (p : Path) :
    Except String (List Nat) :=
  if faults p then .error "EIO: i/o error, read"
  else
    match getA fs.files p with
    | some b => .ok b
    | none => .error "ENOENT: no such file or directory"

/-- `fs.rm(p, {recursive: true, force: true})`: drop every directory and
file at or below `p`. -/
def FS.rmRecursive (fs : FS) (p : Path) : FS :=
  { dirs := fs.dirs.filter (fun d => ¬ p <+: d),
    files := fs.files.filter (fun q => ¬ p <+: q.1) }

/-- The server's `UploadSession` record. -/
structure UploadSession where
  id : String
  fileName : String
  fileSize : Nat
  fileType : String
  totalChunks : Nat
  uploadedChunks : Finset Nat
  tempDir : Path
  createdAt : Nat
  lastActivity : Nat
deriving DecidableEq

/-- The `UploadService`'s mutable state: the `sessions` map plus the
disk. -/
structure ServerState where
  sessions : List (String × UploadSession)
  fs : FS
deriving DecidableEq

/-- `path.join(process.cwd(), 'uploads')`, relative to the working
directory. -/
def uploadsDir : Path := ["uploads"]

/-- JS `String.prototype.padStart(n, c)`. -/
def padStart (s : String) (n : Nat) (c : Char) : String :=
  String.mk (List.replicate (n - s.length) c) ++ s

/-- `` `chunk-${String(chunkIndex).padStart(5, '0')}` ``. -/
def chunkFileName (i : Nat) : String :=
  "chunk-" ++ padStart (toString i) 5 '0'

/-- `path.join(session.tempDir, `chunk-...`)`: the staged location of
chunk `i`, deterministically derived from `(tempDir, i)`. -/
def chunkPath (tempDir : Path) (i : Nat) : Path :=
  tempDir ++ [chunkFileName i]

/-! ## Server: `UploadService` operations -/

/-- `UploadService.initializeUpload(fileName, fileSize, fileType,
totalChunks)`.  `uploadId` stands for the generated `uuidv4()` and `now`
for `new Date()`; the `mkdir` for the staging directory is the one
fallible step. -/
def initializeUpload (faults : Path → Bool) (st : ServerState)
    (uploadId fileName : String) (fileSize : Nat) (fileType : String)
    (totalChunks : Nat) (now : Nat) : ServerState × Except String String :=
  let tempDir := uploadsDir ++ [uploadId]
  if faults tempDir then
    (st, .error "EACCES: permission denied, mkdir")
  else
    let session : UploadSession :=
      { id := uploadId, fileName := fileName, fileSize := fileSize,
        fileType := fileType, totalChunks := totalChunks,
        uploadedChunks := ∅, tempDir := tempDir,
        createdAt := now, lastActivity := now }
    ({ sessions := setA st.sessions uploadId session,
       fs := st.fs.mkdir tempDir }, .ok uploadId)

/-- `UploadService.saveChunk(uploadId, chunkIndex, chunkData)`: look up
the session, validate the index, write the chunk file, and only then
record the index and bump `lastActivity`.  `chunkIndex` is an `Int`
because the controller feeds it `parseInt(...)`. -/
def saveChunk (faults : Path → Bool) (st : ServerState) (uploadId : String)
    (chunkIndex : Int) (chunkData : List Nat) (now : Nat) :
    ServerState × Except String Unit :=
  match getA st.sessions uploadId with
  | none => (st, .error "Upload session not found")
  | some session =>
    if chunkIndex < 0 ∨ (session.totalChunks : Int) ≤ chunkIndex then
      (st, .error ("Invalid chunk index: " ++ toString chunkIndex))
    else
      let cp := chunkPath session.tempDir chunkIndex.toNat
      if faults cp then (st, .error "EIO: i/o error, write")
      else
        let session1 :=
          { session with
              uploadedChunks := insert chunkIndex.toNat session.uploadedChunks,
              lastActivity := now }
        ({ sessions := setA st.sessions uploadId session1,
           fs := st.fs.writeFile cp chunkData }, .ok ())

/-- The loop body of `UploadService.mergeChunks`: read each staged chunk
in ascending index order and append it to the output file; a failed read
closes the stream (no disk effect) and rejects, leaving whatever was
already written at `outputPath` in place. -/
def mergeChunksGo (faults : Path → Bool) (tempDir outputPath : Path) :
    FS → List Nat → FS × Except String Unit
  | fs, [] => (fs, .ok ())
  | fs, i :: rest =>
    match FS.readFile faults fs (chunkPath tempDir i) with
    | .error e => (fs, .error ("Failed to read chunk " ++ toString i ++ ": " ++ e))
    | .ok data =>
      let cur := (getA fs.files outputPath).getD []
      mergeChunksGo faults tempDir outputPath
        (fs.writeFile outputPath (cur ++ data)) rest

/-- `UploadService.mergeChunks(session, outputPath)`:
`createWriteStream` truncates/creates the output, then chunks
`0..totalChunks-1` are appended in order. -/
def mergeChunks (faults : Path → Bool) (fs : FS) (session : UploadSession)
    (outputPath : Path) : FS × Except String Unit :=
  mergeChunksGo faults session.tempDir outputPath
    (fs.writeFile outputPath []) (List.range session.totalChunks)

/-- `UploadService.cleanupSession(uploadId)`: delete the staging
directory and drop the session from the map; a no-op when the session is
unknown. -/
def cleanupSession (st : ServerState) (uploadId : String) : ServerState :=
  match getA st.sessions uploadId with
  | none => st
  | some session =>
    { sessions := eraseA st.sessions uploadId,
      fs := st.fs.rmRecursive session.tempDir }

/-- The `Missing chunks: ...` message of `finalizeUpload`: the first
five missing indices joined by `, `, with `...` appended when more are
missing. -/
def missingChunksMessage (missing : List Nat) : String :=
  "Missing chunks: " ++ String.intercalate ", " ((missing.take 5).map toString) ++
    (if missing.length > 5 then "..." else "")

/-- `UploadService.finalizeUpload(uploadId, outputDir)`.  `newUuid`
stands for the `uuidv4()` embedded into the output file name.  Unknown
session and incomplete sessions reject without touching any state; a
merge failure propagates with the disk as the failed merge left it
(sessions and staging untouched); success deletes the staging area,
drops the session, and returns `{filePath, fileName}`. -/
def finalizeUpload (faults : Path → Bool) (st : ServerState)
    (uploadId : String) (outputDir : Path) (newUuid : String) :
    ServerState × Except String (Path × String) :=
  match getA st.sessions uploadId with
  | none => (st, .error "Upload session not found")
  | some session =>
    if session.uploadedChunks.card ≠ session.totalChunks then
      let missing := (List.range session.totalChunks).filter
        (fun i => decide (i ∉ session.uploadedChunks))
      (st, .error (missingChunksMessage missing))
    else
      let fs1 := st.fs.mkdir outputDir
      let filePath := outputDir ++ [newUuid ++ "-" ++ session.fileName]
      let merged := mergeChunks faults fs1 session filePath
      match merged.2 with
      | .error e => ({ st with fs := merged.1 }, .error e)
      | .ok _ =>
        let st1 : ServerState := { st with fs := merged.1 }
        (cleanupSession st1 uploadId, .ok (filePath, session.fileName))

/-- `UploadService.cancelUpload(uploadId)`: clean up when the session
exists, otherwise do nothing. -/
def cancelUpload (st : ServerState) (uploadId : String) : ServerState :=
  match getA st.sessions uploadId with
  | none => st
  | some _ => cleanupSession st uploadId

/-- `ONE_DAY` in milliseconds. -/
def ONE_DAY : Nat := 24 * 60 * 60 * 1000

/-- `UploadService.cleanupStaleUploads`: clean up every session whose
age `now - lastActivity` exceeds one day. -/
def cleanupStaleUploads (st : ServerState) (now : Nat) : ServerState :=
  (st.sessions.filter (fun p => decide (ONE_DAY < now - p.2.lastActivity))).foldl
    (fun s p => cleanupSession s p.1) st

/-! ## Server: HTTP controller layer (`UploadController`) -/

/-- The JSON bodies the upload controller produces. -/
inductive RespBody where
  | message (m : String)
  | uploadIdBody (id : String)
  | success
deriving DecidableEq, Repr

/-- An HTTP response: status code plus JSON body. -/
structure HttpResponse where
  status : Nat
  body : RespBody
deriving DecidableEq, Repr

/-- JS `String.prototype.split(c)` for a one-character separator,
structurally on the character list. -/
def splitOnChar (c : Char) : List Char → List (List Char)
  | [] => [[]]
  | a :: rest =>
    let r := splitOnChar c rest
    if a = c then [] :: r
    else
      match r with
      | [] => [[a]]
      | h :: t => (a :: h) :: t

/-- `getFileTitle` (`AudiobookService.ts`): split the file name on `.`,
pop the extension (falling back to `txt` when it is empty), and join the
rest with `_` as the title. -/
def getFileTitle (fileName : String) : String × String :=
  let parts := (splitOnChar '.' fileName.data).map String.mk
  let fileType := jsStringOr (parts.getLastD "") "txt"
  let title := String.intercalate "_" parts.dropLast
  (title, fileType)

/-- `BookService.checkExisting(bookTitle)`: throws when a book with the
same title is already in the repository (modelled as the list of
existing titles). -/
def checkExisting (bookTitles : List String) (bookTitle : String) :
    Except String Unit :=
  if bookTitles.any (fun t => t = bookTitle) then
    .error "Book with the same title already exists"
  else .ok ()

/-- The body of `POST /upload/init`.  `fileType` is `none` when the
field is absent (the controller substitutes
`'application/octet-stream'`). -/
structure InitRequest where
  fileName : String
  fileSize : Nat
  fileType : Option String
  totalChunks : Nat
deriving DecidableEq, Repr

/-- `UploadController.initializeUpload`: reject with 400 when
`!fileName || !fileSize || !totalChunks` (JS truthiness: the empty
string and 0 are falsy), then `checkExisting` on the derived title and
`uploadService.initializeUpload`, both of whose exceptions become a 500
`{message}`; on success 200 `{uploadId}`. -/
def initializeUploadController (bookTitles : List String)
    (faults : Path → Bool) (st : ServerState) (uploadId : String) (now : Nat)
    (req : InitRequest) : ServerState × HttpResponse :=
  if req.fileName = "" ∨ req.fileSize = 0 ∨ req.totalChunks = 0 then
    (st, ⟨400, .message "Missing required fields: fileName, fileSize, totalChunks"⟩)
  else
    match checkExisting bookTitles (getFileTitle req.fileName).1 with
    | .error e => (st, ⟨500, .message e⟩)
    | .ok _ =>
      let r := initializeUpload faults st uploadId req.fileName req.fileSize
        (req.fileType.getD "application/octet-stream") req.totalChunks now
      match r.2 with
      | .ok uid => (r.1, ⟨200, .uploadIdBody uid⟩)
      | .error e => (r.1, ⟨500, .message e⟩)

/-- The body of `POST /upload/chunk`: `uploadId` from the form,
`chunkIndex` (already through `parseInt`, `none` when the field was
absent) and the multipart `chunk` file (`none` when absent). -/
structure ChunkRequest where
  uploadId : String
  chunkIndex : Option Int
  chunk : Option (List Nat)
deriving DecidableEq, Repr

/-- `UploadController.uploadChunk`: 400 when
`!uploadId || chunkIndex === undefined || !chunk`; otherwise
`saveChunk`, whose thrown errors — unknown session, invalid index, or a
write fault alike — become a 500 `{message}`; on success 200
`{success: true}`. -/
def uploadChunkController (faults : Path → Bool) (st : ServerState)
    (now : Nat) (req : ChunkRequest) : ServerState × HttpResponse :=
  match req.chunkIndex, req.chunk with
  | some ci, some data =>
    if req.uploadId = "" then
      (st, ⟨400, .message "Missing required fields: uploadId, chunkIndex, chunk"⟩)
    else
      let r := saveChunk faults st req.uploadId ci data now
      match r.2 with
      | .ok _ => (r.1, ⟨200, .success⟩)
      | .error e => (r.1, ⟨500, .message e⟩)
  | _, _ =>
    (st, ⟨400, .message "Missing required fields: uploadId, chunkIndex, chunk"⟩)

/-! ## Helper definitions for the verification: invariants,
reachability, and concrete example states -/

/-- The state `saveChunk` leaves behind on its success path. -/
def saveChunkOkState (st : ServerState) (uploadId : String)
    (session : UploadSession) (i : Nat) (bytes : List Nat) (now : Nat) :
    ServerState where
  sessions := setA st.sessions uploadId
    { session with
        uploadedChunks := insert i session.uploadedChunks,
        lastActivity := now }
  fs := st.fs.writeFile (chunkPath session.tempDir i) bytes

/-- Invariant: every session's staging directory is the one allocated
for its own id. -/
def sessionsWF (st : ServerState) : Prop :=
  ∀ p ∈ st.sessions, p.2.tempDir = uploadsDir ++ [p.1]

/-- The write-before-record invariant: every recorded chunk index has a
staged chunk file on disk at the path derived from `(tempDir, index)`. -/
def chunkFilesStaged (st : ServerState) : Prop :=
  ∀ p ∈ st.sessions, ∀ i ∈ p.2.uploadedChunks,
    (getA st.fs.files (chunkPath p.2.tempDir i)).isSome = true

/-- States the `UploadService` can be in: empty at start, then closed
under its five mutating operations, with arbitrary request arguments,
times, generated ids and I/O faults. -/
inductive Reachable : ServerState → Prop
  | start (fs : FS) : Reachable ⟨[], fs⟩
  | init (faults : Path → Bool) (st : ServerState) (uploadId fileName : String)
      (fileSize : Nat) (fileType : String) (totalChunks now : Nat) :
      Reachable st →
      Reachable (initializeUpload faults st uploadId fileName fileSize
        fileType totalChunks now).1
  | save (faults : Path → Bool) (st : ServerState) (uploadId : String)
      (chunkIndex : Int) (chunkData : List Nat) (now : Nat) :
      Reachable st →
      Reachable (saveChunk faults st uploadId chunkIndex chunkData now).1
  | finalize (faults : Path → Bool) (st : ServerState) (uploadId : String)
      (outputDir : Path) (newUuid : String) :
      Reachable st →
      Reachable (finalizeUpload faults st uploadId outputDir newUuid).1
  | cancel (st : ServerState) (uploadId : String) :
      Reachable st → Reachable (cancelUpload st uploadId)
  | reap (st : ServerState) (now : Nat) :
      Reachable st → Reachable (cleanupStaleUploads st now)

/-- No I/O faults. -/
def noFaults : Path → Bool := fun _ => false

/-- A fresh server with an empty store and empty disk. -/
def exState0 : ServerState := ⟨[], ⟨[], []⟩⟩

/-- After initializing a two-chunk upload session `sid` for
`book.txt`. -/
def exState1 : ServerState :=
  (initializeUpload noFaults exState0 "sid" "book.txt" 5 "text/plain" 2 100).1

/-- The session record created in `exState1`. -/
def exSession1 : UploadSession :=
  { id := "sid", fileName := "book.txt", fileSize := 5,
    fileType := "text/plain", totalChunks := 2, uploadedChunks := ∅,
    tempDir := ["uploads", "sid"], createdAt := 100, lastActivity := 100 }

/-- After staging chunk 0. -/
def exState2 : ServerState := (saveChunk noFaults exState1 "sid" 0 [1, 2, 3] 101).1

/-- After staging chunk 1 as well (both chunks received). -/
def exState3 : ServerState := (saveChunk noFaults exState2 "sid" 1 [4, 5] 102).1

/-- A transient read fault on the staged file of chunk 1. -/
def chunk1Fault : Path → Bool := fun p => p = chunkPath (uploadsDir ++ ["sid"]) 1

/-- The session record after staging chunk 0 in `exState2`. -/
def exSession2 : UploadSession :=
  { id := "sid", fileName := "book.txt", fileSize := 5,
    fileType := "text/plain", totalChunks := 2, uploadedChunks := {0},
    tempDir := ["uploads", "sid"], createdAt := 100, lastActivity := 101 }

/-! ## Arithmetic facts about the chunk plan -/

theorem lt_totalChunksOf_iff {S C k : Nat} (hC : 0 < C) :
    k < totalChunksOf S C ↔ k * C < S := by
  unfold totalChunksOf
  rw [Nat.lt_iff_add_one_le, Nat.le_div_iff_mul_le hC, Nat.add_mul, Nat.one_mul]
  generalize k * C = m
  omega

theorem le_totalChunksOf_mul {S C : Nat} (hC : 0 < C) :
    S ≤ totalChunksOf S C * C := by
  by_contra h
  push_neg at h
  exact lt_irrefl _ ((lt_totalChunksOf_iff hC).mpr h)

theorem createChunkMetadata_length (S C : Nat) :
    (createChunkMetadata S C).length = totalChunksOf S C := by
  simp [createChunkMetadata]

theorem createChunkMetadata_get (S C k : Nat)
    (h : k < (createChunkMetadata S C).length) :
    (createChunkMetadata S C).get ⟨k, h⟩ =
      { index := k, start := k * C, endByte := min (k * C + C) S,
        size := min (k * C + C) S - k * C, retries := 0 } := by
  simp [createChunkMetadata]

/-- C2: for every file size `S ≥ 0` and chunk size `C > 0`,
`createChunkMetadata` (with `totalChunks = ⌈S/C⌉` as the constructor
computes it) produces exactly `⌈S/C⌉` descriptors; each descriptor `k`
has `index = k`, `start = k*C`, `end = min(k*C + C, S)` and
`size = end - start`; consecutive ranges abut (no gaps or overlaps);
every byte `b < S` lies in exactly one descriptor's `[start, end)`; and
when `S > 0` the first descriptor starts at 0, the last ends at `S`, and
the last descriptor's size is `S - (totalChunks - 1) * C`. -/
theorem chunkPlanner_tiles (S C : Nat) (hC : 0 < C) :
    (createChunkMetadata S C).length = totalChunksOf S C
    ∧ (∀ k (hk : k < (createChunkMetadata S C).length),
        ((createChunkMetadata S C).get ⟨k, hk⟩).index = k
        ∧ ((createChunkMetadata S C).get ⟨k, hk⟩).start = k * C
        ∧ ((createChunkMetadata S C).get ⟨k, hk⟩).endByte = min (k * C + C) S
        ∧ ((createChunkMetadata S C).get ⟨k, hk⟩).size
            = ((createChunkMetadata S C).get ⟨k, hk⟩).endByte
              - ((createChunkMetadata S C).get ⟨k, hk⟩).start)
    ∧ (∀ k (hk1 : k + 1 < (createChunkMetadata S C).length)
          (hk : k < (createChunkMetadata S C).length),
        ((createChunkMetadata S C).get ⟨k, hk⟩).endByte
          = ((createChunkMetadata S C).get ⟨k + 1, hk1⟩).start)
    ∧ (∀ b, b < S → ∃ k, ∃ hk : k < (createChunkMetadata S C).length,
        ((createChunkMetadata S C).get ⟨k, hk⟩).start ≤ b
        ∧ b < ((createChunkMetadata S C).get ⟨k, hk⟩).endByte
        ∧ ∀ j (hj : j < (createChunkMetadata S C).length),
            ((createChunkMetadata S C).get ⟨j, hj⟩).start ≤ b →
            b < ((createChunkMetadata S C).get ⟨j, hj⟩).endByte → j = k)
    ∧ (0 < S →
        0 < (createChunkMetadata S C).length
        ∧ ∀ hl : (createChunkMetadata S C).length - 1 < (createChunkMetadata S C).length,
            ((createChunkMetadata S C).get
                ⟨(createChunkMetadata S C).length - 1, hl⟩).endByte = S
            ∧ ((createChunkMetadata S C).get
                ⟨(createChunkMetadata S C).length - 1, hl⟩).size
                = S - (totalChunksOf S C - 1) * C) := by
  refine ⟨createChunkMetadata_length S C, ?_, ?_, ?_, ?_⟩
  · intro k hk
    rw [createChunkMetadata_get]
    exact ⟨rfl, rfl, rfl, rfl⟩
  · intro k hk1 hk
    rw [createChunkMetadata_get, createChunkMetadata_get]
    have hklt : (k + 1) * C < S := by
      rw [← lt_totalChunksOf_iff hC, ← createChunkMetadata_length S C]
      exact hk1
    have heq : k * C + C = (k + 1) * C := by ring
    show min (k * C + C) S = (k + 1) * C
    rw [heq, min_eq_left (le_of_lt hklt)]
  · intro b hb
    have hk : b / C < (createChunkMetadata S C).length := by
      rw [createChunkMetadata_length, lt_totalChunksOf_iff hC]
      calc b / C * C ≤ b := Nat.div_mul_le_self b C
        _ < S := hb
    refine ⟨b / C, hk, ?_, ?_, ?_⟩
    · rw [createChunkMetadata_get]
      exact Nat.div_mul_le_self b C
    · rw [createChunkMetadata_get]
      have : b < b / C * C + C := by
        have h1 : b / C * C + b % C = b := Nat.div_add_mod' b C
        have h2 : b % C < C := Nat.mod_lt _ hC
        omega
      simp only [lt_min_iff]
      exact ⟨this, hb⟩
    · intro j hj h1 h2
      rw [createChunkMetadata_get] at h1 h2
      simp only [lt_min_iff] at h2
      exact (Nat.div_eq_of_lt_le h1
        (by simpa [Nat.add_mul, Nat.one_mul] using h2.1)).symm
  · intro hS
    have hn : 0 < totalChunksOf S C := by
      rw [lt_totalChunksOf_iff hC]
      simpa using hS
    have hlen : 0 < (createChunkMetadata S C).length := by
      rw [createChunkMetadata_length]; exact hn
    refine ⟨hlen, ?_⟩
    intro hl
    rw [createChunkMetadata_get]
    have hle : S ≤ totalChunksOf S C * C := le_totalChunksOf_mul hC
    have hlast : (totalChunksOf S C - 1) * C + C = totalChunksOf S C * C := by
      have : 1 ≤ totalChunksOf S C := hn
      generalize hn0 : totalChunksOf S C = n at *
      cases n with
      | zero => omega
      | succ n => simp [Nat.add_mul, Nat.one_mul]
    rw [createChunkMetadata_length]
    constructor
    · simp only [hlast]
      omega
    · simp only [hlast]
      omega

/-- Witness for C2 at `S = 5`, `C = 2`: the plan has `⌈5/2⌉` entries. -/
theorem chunkPlanner_tiles_witness :
    (createChunkMetadata 5 2).length = totalChunksOf 5 2 :=
  (chunkPlanner_tiles 5 2 (by decide)).1

/-! ## The retry loop -/

theorem uploadChunkWithRetryGo_spec (maxRetries idx : Nat)
    (attempt : Nat → SendResult) :
    ∀ fuel k, k + fuel = maxRetries + 1 → k ≤ maxRetries →
      (uploadChunkWithRetryGo maxRetries idx attempt k fuel).attemptsMade
        = (uploadChunkWithRetryGo maxRetries idx attempt k fuel).delays.length + 1
      ∧ (uploadChunkWithRetryGo maxRetries idx attempt k fuel).attemptsMade ≤ fuel
      ∧ ∀ j (hj : j < (uploadChunkWithRetryGo maxRetries idx attempt k fuel).delays.length),
          (uploadChunkWithRetryGo maxRetries idx attempt k fuel).delays.get ⟨j, hj⟩
            = min (1000 * 2 ^ (k + j)) 10000 := by
  intro fuel
  induction fuel with
  | zero => intro k h hk; omega
  | succ fuel ih =>
    intro k h hk
    cases hA : attempt k with
    | ok =>
      simp [uploadChunkWithRetryGo, hA]
    | err m =>
      by_cases hmk : maxRetries ≤ k
      · simp [uploadChunkWithRetryGo, hA, hmk]
      · have hk' : k + 1 ≤ maxRetries := by omega
        have h' : (k + 1) + fuel = maxRetries + 1 := by omega
        obtain ⟨ih1, ih2, ih3⟩ := ih (k + 1) h' hk'
        have hstep : uploadChunkWithRetryGo maxRetries idx attempt k (fuel + 1)
            = { result := (uploadChunkWithRetryGo maxRetries idx attempt (k + 1) fuel).result,
                attemptsMade :=
                  (uploadChunkWithRetryGo maxRetries idx attempt (k + 1) fuel).attemptsMade + 1,
                delays := min (1000 * 2 ^ k) 10000 ::
                  (uploadChunkWithRetryGo maxRetries idx attempt (k + 1) fuel).delays } := by
          simp [uploadChunkWithRetryGo, hA, hmk]
        rw [hstep]
        refine ⟨by simp [ih1], by simpa using Nat.succ_le_succ ih2, ?_⟩
        intro j hj
        cases j with
        | zero => simp
        | succ j =>
          simp only [List.get_cons_succ]
          have hj' : j < (uploadChunkWithRetryGo maxRetries idx attempt (k + 1) fuel).delays.length := by
            simpa using hj
          have := ih3 j hj'
          have harg : k + 1 + j = k + (j + 1) := by omega
          rw [harg] at this
          exact this

/-- C3: for every chunk, `uploadChunkWithRetry` issues at most
`maxRetries + 1` send attempts in total; one backoff delay is slept per
retry (attempts = delays + 1, so there are at most `maxRetries`
retries); and the delay slept before the `(j+1)`-th retry is exactly
`min(1000 * 2^j, 10000)` milliseconds. -/
theorem retryPolicy_bounds (maxRetries idx : Nat) (attempt : Nat → SendResult) :
    (uploadChunkWithRetry maxRetries idx attempt).attemptsMade ≤ maxRetries + 1
    ∧ (uploadChunkWithRetry maxRetries idx attempt).attemptsMade
        = (uploadChunkWithRetry maxRetries idx attempt).delays.length + 1
    ∧ ∀ j (hj : j < (uploadChunkWithRetry maxRetries idx attempt).delays.length),
        (uploadChunkWithRetry maxRetries idx attempt).delays.get ⟨j, hj⟩
          = min (1000 * 2 ^ j) 10000 := by
  obtain ⟨h1, h2, h3⟩ := uploadChunkWithRetryGo_spec maxRetries idx attempt
    (maxRetries + 1) 0 (by omega) (by omega)
  exact ⟨h2, h1, by simpa using h3⟩

/-- Witness for C3 with the default `maxRetries = 3` and an
always-failing send: at most four attempts are made. -/
theorem retryPolicy_bounds_witness :
    (uploadChunkWithRetry 3 5 (fun _ => .err "boom")).attemptsMade ≤ 3 + 1 :=
  (retryPolicy_bounds 3 5 (fun _ => .err "boom")).1

theorem uploadChunkWithRetryGo_allFail (maxRetries idx : Nat)
    (attempt : Nat → SendResult) (msgs : Nat → String)
    (hA : ∀ k, k ≤ maxRetries → attempt k = .err (msgs k)) :
    ∀ fuel k, k + fuel = maxRetries + 1 → k ≤ maxRetries →
      (uploadChunkWithRetryGo maxRetries idx attempt k fuel).result
        = .error (retryFailMessage maxRetries idx (msgs maxRetries))
      ∧ (uploadChunkWithRetryGo maxRetries idx attempt k fuel).attemptsMade = fuel := by
  intro fuel
  induction fuel with
  | zero => intro k h hk; omega
  | succ fuel ih =>
    intro k h hk
    have hAk := hA k hk
    by_cases hmk : maxRetries ≤ k
    · have hkm : k = maxRetries := by omega
      subst hkm
      simp [uploadChunkWithRetryGo, hAk, hmk]
      omega
    · have hk' : k + 1 ≤ maxRetries := by omega
      have h' : (k + 1) + fuel = maxRetries + 1 := by omega
      obtain ⟨ih1, ih2⟩ := ih (k + 1) h' hk'
      simp [uploadChunkWithRetryGo, hAk, hmk, ih1, ih2]

/-- C4 (amended): when every one of the `maxRetries + 1` attempts fails,
`uploadChunkWithRetry` raises a terminal failure after exactly
`maxRetries + 1` attempts whose message is
`lastError.message || "Failed to upload chunk <idx> after <maxRetries>
retries"` — i.e. it is the last error's message alone whenever that
message is nonempty, and it names the chunk index only in the empty
fallback case. -/
theorem retryExhaustion_message (maxRetries idx : Nat)
    (attempt : Nat → SendResult) (msgs : Nat → String)
    (hA : ∀ k, k ≤ maxRetries → attempt k = .err (msgs k)) :
    (uploadChunkWithRetry maxRetries idx attempt).result
      = .error (retryFailMessage maxRetries idx (msgs maxRetries))
    ∧ (uploadChunkWithRetry maxRetries idx attempt).attemptsMade = maxRetries + 1
    ∧ (msgs maxRetries ≠ "" →
        (uploadChunkWithRetry maxRetries idx attempt).result
          = .error (msgs maxRetries)) := by
  obtain ⟨h1, h2⟩ := uploadChunkWithRetryGo_allFail maxRetries idx attempt msgs hA
    (maxRetries + 1) 0 (by omega) (by omega)
  refine ⟨h1, h2, ?_⟩
  intro hne
  show (uploadChunkWithRetryGo maxRetries idx attempt 0 (maxRetries + 1)).result
    = .error (msgs maxRetries)
  rw [h1]
  simp [retryFailMessage, jsStringOr, hne]

/-- Witness for C4's amended theorem: all four attempts fail with
`"boom"`, and the terminal failure is `"boom"`. -/
theorem retryExhaustion_message_witness :
    (uploadChunkWithRetry 3 5 (fun _ => .err "boom")).result
      = .error (retryFailMessage 3 5 "boom")
    ∧ (uploadChunkWithRetry 3 5 (fun _ => .err "boom")).attemptsMade = 3 + 1
    ∧ ("boom" ≠ "" →
        (uploadChunkWithRetry 3 5 (fun _ => .err "boom")).result = .error "boom") :=
  retryExhaustion_message 3 5 (fun _ => .err "boom") (fun _ => "boom")
    (fun _ _ => rfl)

/-- C4 counterexample: chunk 5 fails all four attempts with message
`"network down"`; the terminal failure's message is exactly
`"network down"`, which does not mention the chunk index 5 at all — the
claim that the message carries *both* the last error's message and the
chunk index is false. -/
theorem retryMessage_counterexample :
    (uploadChunkWithRetry 3 5 (fun _ => .err "network down")).result
      = .error "network down"
    ∧ ¬ '5' ∈ "network down".toList := by
  constructor
  · rfl
  · decide


theorem setA_cons_ne {κ α : Type _} [DecidableEq κ] {p : κ × α} {t : List (κ × α)}
    {k : κ} {v : α} (hp : p.1 ≠ k) : setA (p :: t) k v = p :: setA t k v := by
  unfold setA
  simp only [List.any_cons, decide_eq_true_eq]
  by_cases h : t.any (fun q => q.1 = k)
  · simp [h, hp]
  · simp [h, hp]

theorem getA_cons_ne {κ α : Type _} [DecidableEq κ] {p : κ × α} {t : List (κ × α)}
    {k : κ} (hp : p.1 ≠ k) : getA (p :: t) k = getA t k := by
  simp [getA, List.find?, hp]

theorem getA_cons_eq {κ α : Type _} [DecidableEq κ] {p : κ × α} {t : List (κ × α)}
    {k : κ} (hp : p.1 = k) : getA (p :: t) k = some p.2 := by
  simp [getA, List.find?, hp]

theorem getA_setA_self {κ α : Type _} [DecidableEq κ]
    (l : List (κ × α)) (k : κ) (v : α) : getA (setA l k v) k = some v := by
  induction l with
  | nil => simp [setA, getA]
  | cons p t ih =>
    by_cases hp : p.1 = k
    · unfold setA
      have hany : (p :: t).any (fun q => q.1 = k) = true := by
        simp [List.any_cons, hp]
      rw [if_pos hany]
      simp only [List.map_cons, hp, if_pos]
      exact getA_cons_eq rfl
    · rw [setA_cons_ne hp, getA_cons_ne hp]
      exact ih

theorem getA_map_overwrite_ne {κ α : Type _} [DecidableEq κ]
    (t : List (κ × α)) (k k' : κ) (v : α) (h : k' ≠ k) :
    getA (t.map (fun p => if p.1 = k then (k, v) else p)) k' = getA t k' := by
  induction t with
  | nil => rfl
  | cons p t ih =>
    by_cases hp : p.1 = k
    · simp only [List.map_cons, hp, if_pos]
      rw [getA_cons_ne (show ((k, v) : κ × α).1 ≠ k' from Ne.symm h),
        getA_cons_ne (show p.1 ≠ k' from hp ▸ Ne.symm h)]
      exact ih
    · simp only [List.map_cons, if_neg hp]
      by_cases hpk : p.1 = k'
      · rw [getA_cons_eq hpk, getA_cons_eq hpk]
      · rw [getA_cons_ne hpk, getA_cons_ne hpk]
        exact ih

theorem getA_append_single_ne {κ α : Type _} [DecidableEq κ]
    (l : List (κ × α)) (k k' : κ) (v : α) (h : k' ≠ k) :
    getA (l ++ [(k, v)]) k' = getA l k' := by
  induction l with
  | nil => simp [getA, List.find?, Ne.symm h]
  | cons p t ih =>
    by_cases hpk : p.1 = k'
    · rw [List.cons_append, getA_cons_eq hpk, getA_cons_eq hpk]
    · rw [List.cons_append, getA_cons_ne hpk, getA_cons_ne hpk]
      exact ih

theorem getA_setA_ne {κ α : Type _} [DecidableEq κ]
    (l : List (κ × α)) (k k' : κ) (v : α) (h : k' ≠ k) :
    getA (setA l k v) k' = getA l k' := by
  unfold setA
  by_cases hany : l.any (fun q => q.1 = k)
  · rw [if_pos hany]
    exact getA_map_overwrite_ne l k k' v h
  · rw [if_neg hany]
    exact getA_append_single_ne l k k' v h

theorem mem_setA {κ α : Type _} [DecidableEq κ]
    {l : List (κ × α)} {k : κ} {v : α} {p : κ × α} (hp : p ∈ setA l k v) :
    p ∈ l ∨ p = (k, v) := by
  unfold setA at hp
  by_cases hany : l.any (fun q => q.1 = k)
  · rw [if_pos hany] at hp
    obtain ⟨q, hq, hfq⟩ := List.mem_map.mp hp
    by_cases hqk : q.1 = k
    · right
      rw [← hfq, if_pos hqk]
    · left
      rw [← hfq, if_neg hqk]
      exact hq
  · rw [if_neg hany] at hp
    rcases List.mem_append.mp hp with h1 | h1
    · exact Or.inl h1
    · exact Or.inr (List.mem_singleton.mp h1)

theorem mem_eraseA {κ α : Type _} [DecidableEq κ]
    {l : List (κ × α)} {k : κ} {p : κ × α} (hp : p ∈ eraseA l k) :
    p ∈ l ∧ p.1 ≠ k := by
  unfold eraseA at hp
  have := List.mem_filter.mp hp
  refine ⟨this.1, ?_⟩
  simpa using this.2

theorem getA_mem {κ α : Type _} [DecidableEq κ]
    {l : List (κ × α)} {k : κ} {v : α} (h : getA l k = some v) : (k, v) ∈ l := by
  unfold getA at h
  rw [Option.map_eq_some'] at h
  obtain ⟨p, hp, hpv⟩ := h
  have hk : p.1 = k := by simpa using List.find?_some hp
  have hmem : p ∈ l := List.mem_of_find?_eq_some hp
  have : (k, v) = p := by
    rw [← hk, ← hpv]
  rw [this]
  exact hmem

theorem getA_filter_key {κ α : Type _} [DecidableEq κ]
    (l : List (κ × α)) (g : κ → Bool) (k : κ) :
    getA (l.filter (fun p => g p.1)) k = if g k then getA l k else none := by
  induction l with
  | nil => simp [getA]
  | cons p t ih =>
    rw [List.filter_cons]
    by_cases hg : g p.1
    · rw [if_pos hg]
      by_cases hpk : p.1 = k
      · have hgk : g k = true := hpk ▸ hg
        rw [getA_cons_eq hpk, hgk, if_pos rfl, getA_cons_eq hpk]
      · calc getA (p :: t.filter (fun q => g q.1)) k
            = getA (t.filter (fun q => g q.1)) k := getA_cons_ne hpk
          _ = if g k then getA t k else none := ih
          _ = if g k then getA (p :: t) k else none := by rw [getA_cons_ne hpk]
    · rw [if_neg hg]
      by_cases hpk : p.1 = k
      · have hgk : ¬ g k = true := by rw [← hpk]; exact hg
        rw [ih, if_neg hgk, if_neg hgk]
      · rw [ih, getA_cons_ne hpk]


theorem setA_setA {κ α : Type _} [DecidableEq κ]
    (l : List (κ × α)) (k : κ) (v w : α) :
    setA (setA l k v) k w = setA l k w := by
  unfold setA
  by_cases hany : l.any (fun q => q.1 = k)
  · conv_rhs => rw [if_pos hany]
    rw [if_pos hany]
    have hany2 : ((l.map (fun p => if p.1 = k then (k, v) else p)).any
        (fun q => q.1 = k)) = true := by
      rw [List.any_eq_true] at hany ⊢
      obtain ⟨q, hq, hqk⟩ := hany
      refine ⟨if q.1 = k then (k, v) else q, List.mem_map_of_mem _ hq, ?_⟩
      simp only [decide_eq_true_eq] at hqk
      simp [hqk]
    rw [if_pos hany2, List.map_map]
    refine List.map_congr_left ?_
    intro q hq
    by_cases hqk : q.1 = k
    · simp [Function.comp, hqk]
    · simp [Function.comp, hqk]
  · conv_rhs => rw [if_neg hany]
    rw [if_neg hany]
    have hnone : ∀ q ∈ l, ¬ q.1 = k := by
      intro q hq
      rw [List.any_eq_true] at hany
      intro hqk
      exact hany ⟨q, hq, by simp [hqk]⟩
    have hany2 : ((l ++ [(k, v)]).any (fun q => q.1 = k)) = true := by
      rw [List.any_eq_true]
      exact ⟨(k, v), by simp, by simp⟩
    rw [if_pos hany2, List.map_append]
    have h1 : l.map (fun p => if p.1 = k then (k, w) else p) = l := by
      conv_rhs => rw [← List.map_id l]
      refine List.map_congr_left ?_
      intro q hq
      simp [hnone q hq]
    rw [h1]
    simp


theorem saveChunk_ok_eq (faults : Path → Bool) (st : ServerState)
    (uploadId : String) (ci : Int) (bytes : List Nat) (now : Nat)
    (session : UploadSession)
    (hs : getA st.sessions uploadId = some session)
    (h0 : 0 ≤ ci) (hlt : ci < (session.totalChunks : Int))
    (hnf : faults (chunkPath session.tempDir ci.toNat) = false) :
    saveChunk faults st uploadId ci bytes now
      = (saveChunkOkState st uploadId session ci.toNat bytes now, .ok ()) := by
  have hcond : ¬(ci < 0 ∨ (session.totalChunks : Int) ≤ ci) := by omega
  simp [saveChunk, hs, hcond, hnf, saveChunkOkState]

/-- C8: recording the same chunk index twice with the same bytes is
idempotent — for every session and in-range index, the state after two
`saveChunk` calls equals the state after one (the received-index set
gains nothing from the repeat, and the staged bytes at the
deterministically derived `chunkPath (tempDir, index)` are simply
overwritten with the same contents). -/
theorem saveChunk_idempotent (faults : Path → Bool) (st : ServerState)
    (uploadId : String) (ci : Int) (bytes : List Nat) (now : Nat)
    (session : UploadSession)
    (hs : getA st.sessions uploadId = some session)
    (h0 : 0 ≤ ci) (hlt : ci < (session.totalChunks : Int))
    (hnf : faults (chunkPath session.tempDir ci.toNat) = false) :
    (saveChunk faults (saveChunk faults st uploadId ci bytes now).1
        uploadId ci bytes now).1
      = (saveChunk faults st uploadId ci bytes now).1
    ∧ getA (saveChunk faults st uploadId ci bytes now).1.fs.files
        (chunkPath session.tempDir ci.toNat) = some bytes := by
  have h1 := saveChunk_ok_eq faults st uploadId ci bytes now session hs h0 hlt hnf
  have hs1 : getA (saveChunkOkState st uploadId session ci.toNat bytes now).sessions
      uploadId = some
      { session with
          uploadedChunks := insert ci.toNat session.uploadedChunks,
          lastActivity := now } := getA_setA_self _ _ _
  have h2 := saveChunk_ok_eq faults
    (saveChunkOkState st uploadId session ci.toNat bytes now) uploadId ci bytes now
    { session with
        uploadedChunks := insert ci.toNat session.uploadedChunks,
        lastActivity := now } hs1 h0 hlt hnf
  constructor
  · rw [h1]
    simp only
    rw [h2]
    simp only [saveChunkOkState, Finset.insert_idem]
    congr 1
    · exact setA_setA _ _ _ _
    · simp [FS.writeFile, setA_setA]
  · rw [h1]
    simp [saveChunkOkState, FS.writeFile, getA_setA_self]


theorem intercalate_go_prefix (s : String) :
    ∀ (as : List String) (acc : String),
      acc.data <+: (String.intercalate.go acc s as).data := by
  intro as
  induction as with
  | nil => intro acc; exact List.prefix_refl _
  | cons a as ih =>
    intro acc
    have h1 := ih (acc ++ s ++ a)
    have h2 : acc.data <+: (acc ++ s ++ a).data := by
      simp only [String.data_append]
      exact ⟨s.data ++ a.data, by simp⟩
    exact h2.trans h1

theorem missingChunksMessage_names_head (m : Nat) (rest : List Nat) :
    (toString m).toList <:+: (missingChunksMessage (m :: rest)).toList := by
  unfold missingChunksMessage
  have htake : (m :: rest).take 5 = m :: rest.take 4 := rfl
  rw [htake]
  have hmap : (m :: rest.take 4).map toString = toString m :: (rest.take 4).map toString := rfl
  rw [hmap]
  have hint : String.intercalate ", " (toString m :: (rest.take 4).map toString)
      = String.intercalate.go (toString m) ", " ((rest.take 4).map toString) := rfl
  rw [hint]
  have hpre : (toString m).data <+: (String.intercalate.go (toString m) ", "
      ((rest.take 4).map toString)).data := intercalate_go_prefix _ _ _
  obtain ⟨suf, hsuf⟩ := hpre
  refine ⟨"Missing chunks: ".toList, suf ++
    (if (m :: rest).length > 5 then "..." else "").toList, ?_⟩
  show "Missing chunks: ".data ++ (toString m).data ++ (suf ++ _) =
    ("Missing chunks: " ++ _ ++ _).data
  simp only [String.data_append]
  rw [← hsuf]
  simp [List.append_assoc]


theorem getA_writeFile_isSome (fs : FS) (p q : Path) (b : List Nat)
    (h : (getA fs.files q).isSome = true) :
    (getA (fs.writeFile p b).files q).isSome = true := by
  by_cases hq : q = p
  · subst hq
    simp [FS.writeFile, getA_setA_self]
  · rw [FS.writeFile]
    simp only
    rw [getA_setA_ne _ _ _ _ hq]
    exact h

theorem mergeChunksGo_preserves_isSome (faults : Path → Bool) (td out : Path) :
    ∀ (is : List Nat) (fs : FS) (q : Path),
      (getA fs.files q).isSome = true →
      (getA (mergeChunksGo faults td out fs is).1.files q).isSome = true := by
  intro is
  induction is with
  | nil => intro fs q h; exact h
  | cons i rest ih =>
    intro fs q h
    cases hr : FS.readFile faults fs (chunkPath td i) with
    | error e =>
      simp only [mergeChunksGo, hr]
      exact h
    | ok data =>
      simp only [mergeChunksGo, hr]
      exact ih _ _ (getA_writeFile_isSome _ _ _ _ h)

theorem mergeChunksGo_ok (td out : Path) :
    ∀ (is : List Nat) (fs : FS),
      (∀ i ∈ is, (getA fs.files (chunkPath td i)).isSome = true) →
      (mergeChunksGo (fun _ => false) td out fs is).2 = .ok () := by
  intro is
  induction is with
  | nil => intro fs h; rfl
  | cons i rest ih =>
    intro fs h
    have hi := h i (by simp)
    obtain ⟨b, hb⟩ := Option.isSome_iff_exists.mp hi
    have hr : FS.readFile (fun _ => false) fs (chunkPath td i) = .ok b := by
      simp [FS.readFile, hb]
    simp only [mergeChunksGo, hr]
    exact ih _ (fun j hj => getA_writeFile_isSome _ _ _ _ (h j (by simp [hj])))

theorem mergeChunks_ok (fs : FS) (session : UploadSession) (out : Path)
    (h : ∀ i, i < session.totalChunks →
      (getA fs.files (chunkPath session.tempDir i)).isSome = true) :
    (mergeChunks (fun _ => false) fs session out).2 = .ok () := by
  unfold mergeChunks
  apply mergeChunksGo_ok
  intro i hi
  rw [List.mem_range] at hi
  exact getA_writeFile_isSome _ _ _ _ (h i hi)


/-- Uploading a list of in-range chunk indices one after another (the
resume/refill path) extends the session's received set by exactly those
indices and stages a file for each. -/
theorem saveChunk_foldl_spec (uploadId : String) (bytes : Nat → List Nat)
    (now : Nat) (session : UploadSession) :
    ∀ (M : List Nat) (st : ServerState) (S : Finset Nat) (la : Nat),
      (∀ i ∈ M, i < session.totalChunks) →
      getA st.sessions uploadId = some
        { session with uploadedChunks := S, lastActivity := la } →
      (∀ i ∈ S, (getA st.fs.files (chunkPath session.tempDir i)).isSome = true) →
      ∃ la', getA (M.foldl
            (fun s i => (saveChunk (fun _ => false) s uploadId (Int.ofNat i)
              (bytes i) now).1) st).sessions uploadId
          = some { session with
                     uploadedChunks := S ∪ M.toFinset,
                     lastActivity := la' }
        ∧ ∀ i ∈ S ∪ M.toFinset,
            (getA (M.foldl
              (fun s i => (saveChunk (fun _ => false) s uploadId (Int.ofNat i)
                (bytes i) now).1) st).fs.files
              (chunkPath session.tempDir i)).isSome = true := by
  intro M
  induction M with
  | nil =>
    intro st S la hM hs hgood
    exact ⟨la, by simpa using hs, by simpa using hgood⟩
  | cons i rest ih =>
    intro st S la hM hs hgood
    have hi : i < session.totalChunks := hM i (by simp)
    have hsave := saveChunk_ok_eq (fun _ => false) st uploadId (Int.ofNat i)
      (bytes i) now { session with uploadedChunks := S, lastActivity := la }
      hs (Int.ofNat_nonneg i) (Int.ofNat_lt.mpr hi) rfl
    have hstep : (saveChunk (fun _ => false) st uploadId (Int.ofNat i)
        (bytes i) now).1
        = saveChunkOkState st uploadId
            { session with uploadedChunks := S, lastActivity := la }
            (Int.toNat (Int.ofNat i)) (bytes i) now := by
      rw [hsave]
    have htoNat : (Int.toNat (Int.ofNat i)) = i := Int.toNat_ofNat i
    have hs' : getA (saveChunkOkState st uploadId
        { session with uploadedChunks := S, lastActivity := la }
        (Int.toNat (Int.ofNat i)) (bytes i) now).sessions uploadId
        = some { session with
                   uploadedChunks := insert i S,
                   lastActivity := now } := by
      rw [saveChunkOkState]
      simp only [htoNat]
      exact getA_setA_self _ _ _
    have hgood' : ∀ j ∈ insert i S,
        (getA (saveChunkOkState st uploadId
          { session with uploadedChunks := S, lastActivity := la }
          (Int.toNat (Int.ofNat i)) (bytes i) now).fs.files
          (chunkPath session.tempDir j)).isSome = true := by
      intro j hj
      rw [saveChunkOkState]
      simp only [htoNat]
      rcases Finset.mem_insert.mp hj with hji | hjS
      · subst hji
        simp [FS.writeFile, getA_setA_self]
      · exact getA_writeFile_isSome _ _ _ _ (hgood j hjS)
    have hfold : (i :: rest).foldl
        (fun s j => (saveChunk (fun _ => false) s uploadId (Int.ofNat j)
          (bytes j) now).1) st
        = rest.foldl
          (fun s j => (saveChunk (fun _ => false) s uploadId (Int.ofNat j)
            (bytes j) now).1)
          (saveChunkOkState st uploadId
            { session with uploadedChunks := S, lastActivity := la }
            (Int.toNat (Int.ofNat i)) (bytes i) now) := by
      rw [List.foldl_cons, hstep]
    rw [hfold]
    obtain ⟨la', h1, h2⟩ := ih _ (insert i S) now
      (fun j hj => hM j (by simp [hj])) hs' hgood'
    have huf : S ∪ (i :: rest).toFinset = insert i S ∪ rest.toFinset := by
      rw [List.toFinset_cons, Finset.union_insert, Finset.insert_union]
    refine ⟨la', ?_, ?_⟩
    · rw [h1, huf]
    · intro j hj
      apply h2
      rw [← huf]
      exact hj


theorem missingFilter_ne_nil (S : Finset Nat) (n : Nat) (hcard : S.card < n) :
    (List.range n).filter (fun i => decide (i ∉ S)) ≠ [] := by
  intro hnil
  have hall : ∀ i, i < n → i ∈ S := by
    intro i hi
    by_contra hmem
    have hmemf : i ∈ (List.range n).filter (fun i => decide (i ∉ S)) := by
      rw [List.mem_filter]
      exact ⟨List.mem_range.mpr hi, by simpa using hmem⟩
    rw [hnil] at hmemf
    exact absurd hmemf (List.not_mem_nil i)
  have hsub : Finset.range n ⊆ S := fun i hi => hall i (Finset.mem_range.mp hi)
  have hle := Finset.card_le_card hsub
  rw [Finset.card_range] at hle
  omega

/-- C7: for a session with fewer received indices than `totalChunks`
(whose indices are in range with their staged files on disk, as every
reachable state guarantees), `finalizeUpload` fails with a
`Missing chunks:` error naming at least one absent index and leaves the
store and the disk completely unchanged; once the missing indices are
subsequently uploaded, finalize on the same session succeeds. -/
theorem finalize_missing_refusal (faults : Path → Bool) (st : ServerState)
    (uploadId : String) (outDir : Path) (newUuid : String)
    (session : UploadSession) (bytes : Nat → List Nat) (now : Nat)
    (hs : getA st.sessions uploadId = some session)
    (hsub : ∀ i ∈ session.uploadedChunks, i < session.totalChunks)
    (hcard : session.uploadedChunks.card < session.totalChunks)
    (hgood : ∀ i ∈ session.uploadedChunks,
      (getA st.fs.files (chunkPath session.tempDir i)).isSome = true) :
    (∃ msg, (finalizeUpload faults st uploadId outDir newUuid).2 = .error msg
      ∧ ∃ m, m < session.totalChunks ∧ m ∉ session.uploadedChunks
        ∧ (toString m).toList <:+: msg.toList)
    ∧ (finalizeUpload faults st uploadId outDir newUuid).1 = st
    ∧ (∃ r, (finalizeUpload (fun _ => false)
        (((List.range session.totalChunks).filter
            (fun i => decide (i ∉ session.uploadedChunks))).foldl
          (fun s i => (saveChunk (fun _ => false) s uploadId (Int.ofNat i)
            (bytes i) now).1) st)
        uploadId outDir newUuid).2 = .ok r) := by
  have hne : session.uploadedChunks.card ≠ session.totalChunks := Nat.ne_of_lt hcard
  have hred : finalizeUpload faults st uploadId outDir newUuid
      = (st, .error (missingChunksMessage ((List.range session.totalChunks).filter
          (fun i => decide (i ∉ session.uploadedChunks))))) := by
    simp [finalizeUpload, hs, hne]
  refine ⟨?_, by rw [hred], ?_⟩
  · rw [hred]
    cases hm : (List.range session.totalChunks).filter
        (fun i => decide (i ∉ session.uploadedChunks)) with
    | nil => exact absurd hm (missingFilter_ne_nil _ _ hcard)
    | cons m rest =>
      refine ⟨missingChunksMessage (m :: rest), rfl, m, ?_, ?_,
        missingChunksMessage_names_head m rest⟩
      · have hmem : m ∈ (List.range session.totalChunks).filter
            (fun i => decide (i ∉ session.uploadedChunks)) := by
          rw [hm]; exact List.mem_cons_self m rest
        rw [List.mem_filter] at hmem
        exact List.mem_range.mp hmem.1
      · have hmem : m ∈ (List.range session.totalChunks).filter
            (fun i => decide (i ∉ session.uploadedChunks)) := by
          rw [hm]; exact List.mem_cons_self m rest
        rw [List.mem_filter] at hmem
        simpa using hmem.2
  · have hM : ∀ i ∈ (List.range session.totalChunks).filter
        (fun i => decide (i ∉ session.uploadedChunks)), i < session.totalChunks := by
      intro i hi
      rw [List.mem_filter] at hi
      exact List.mem_range.mp hi.1
    obtain ⟨la', hlook, hpres⟩ := saveChunk_foldl_spec uploadId bytes now session
      ((List.range session.totalChunks).filter
        (fun i => decide (i ∉ session.uploadedChunks))) st
      session.uploadedChunks session.lastActivity hM hs hgood
    have hufull : session.uploadedChunks ∪ ((List.range session.totalChunks).filter
        (fun i => decide (i ∉ session.uploadedChunks))).toFinset
        = Finset.range session.totalChunks := by
      ext j
      simp only [Finset.mem_union, List.mem_toFinset, List.mem_filter,
        List.mem_range, Finset.mem_range, decide_eq_true_eq]
      constructor
      · rintro (hj | ⟨hj, _⟩)
        · exact hsub j hj
        · exact hj
      · intro hj
        by_cases hjS : j ∈ session.uploadedChunks
        · exact Or.inl hjS
        · exact Or.inr ⟨hj, hjS⟩
    rw [hufull] at hlook hpres
    generalize hstF : ((List.range session.totalChunks).filter
        (fun i => decide (i ∉ session.uploadedChunks))).foldl
      (fun s i => (saveChunk (fun _ => false) s uploadId (Int.ofNat i)
        (bytes i) now).1) st = stF at hlook hpres ⊢
    have hmerge : (mergeChunks (fun _ => false) (stF.fs.mkdir outDir)
        { session with
            uploadedChunks := Finset.range session.totalChunks,
            lastActivity := la' }
        (outDir ++ [newUuid ++ "-" ++ session.fileName])).2 = .ok () := by
      apply mergeChunks_ok
      intro i hi
      exact hpres i (Finset.mem_range.mpr hi)
    refine ⟨(outDir ++ [newUuid ++ "-" ++ session.fileName], session.fileName), ?_⟩
    simp only [finalizeUpload, hlook]
    simp only [Finset.card_range, ne_eq, not_true_eq_false, if_false, ite_false]
    simp only [hmerge]


theorem mergeChunks_preserves_isSome (faults : Path → Bool) (fs : FS)
    (session : UploadSession) (out q : Path)
    (h : (getA fs.files q).isSome = true) :
    (getA (mergeChunks faults fs session out).1.files q).isSome = true := by
  unfold mergeChunks
  exact mergeChunksGo_preserves_isSome _ _ _ _ _ _
    (getA_writeFile_isSome _ _ _ _ h)

theorem tempDir_prefix_chunkPath_iff (a b : String) (i : Nat) :
    (uploadsDir ++ [a]) <+: chunkPath (uploadsDir ++ [b]) i ↔ a = b := by
  show ["uploads", a] <+: ["uploads", b, chunkFileName i] ↔ a = b
  rw [List.cons_prefix_cons, List.cons_prefix_cons]
  simp

theorem getA_rmFilter {α : Type _} (l : List (Path × α)) (td q : Path) :
    getA (l.filter (fun r => ¬ td <+: r.1)) q
      = if td <+: q then none else getA l q := by
  induction l with
  | nil =>
    by_cases hq : td <+: q
    · simp [getA, hq]
    · simp [getA, hq]
  | cons p t ih =>
    rw [List.filter_cons]
    by_cases hpq : p.1 = q
    · by_cases hpre : td <+: q
      · have hcond : (decide (¬ td <+: p.1)) = false := by
          simp [hpq, hpre]
        rw [hcond]
        simp only [Bool.false_eq_true, if_false]
        rw [ih, if_pos hpre, if_pos hpre]
      · have hcond : (decide (¬ td <+: p.1)) = true := by
          simp [hpq, hpre]
        rw [hcond]
        simp only [if_true]
        rw [getA_cons_eq hpq, if_neg hpre, getA_cons_eq hpq]
    · by_cases hcond : (decide (¬ td <+: p.1)) = true
      · rw [hcond]
        simp only [if_true]
        rw [getA_cons_ne hpq, ih]
        by_cases hpre : td <+: q
        · rw [if_pos hpre, if_pos hpre]
        · rw [if_neg hpre, if_neg hpre, getA_cons_ne hpq]
      · rw [Bool.not_eq_true] at hcond
        rw [hcond]
        simp only [Bool.false_eq_true, if_false]
        rw [ih]
        by_cases hpre : td <+: q
        · rw [if_pos hpre, if_pos hpre]
        · rw [if_neg hpre, if_neg hpre, getA_cons_ne hpq]

theorem cleanupSession_preserves_inv (st : ServerState) (uploadId : String)
    (h : sessionsWF st ∧ chunkFilesStaged st) :
    sessionsWF (cleanupSession st uploadId)
      ∧ chunkFilesStaged (cleanupSession st uploadId) := by
  obtain ⟨hwf, hst⟩ := h
  unfold cleanupSession
  cases hl : getA st.sessions uploadId with
  | none => exact ⟨hwf, hst⟩
  | some session =>
    have hsessWF : session.tempDir = uploadsDir ++ [uploadId] :=
      hwf (uploadId, session) (getA_mem hl)
    constructor
    · intro p hp
      exact hwf p (mem_eraseA hp).1
    · intro p hp i hi
      obtain ⟨hpmem, hpne⟩ := mem_eraseA hp
      have hpres := hst p hpmem i hi
      have hptd : p.2.tempDir = uploadsDir ++ [p.1] := hwf p hpmem
      show (getA (st.fs.rmRecursive session.tempDir).files
        (chunkPath p.2.tempDir i)).isSome = true
      unfold FS.rmRecursive
      simp only
      rw [getA_rmFilter]
      have hnpre : ¬ session.tempDir <+: chunkPath p.2.tempDir i := by
        rw [hsessWF, hptd]
        rw [tempDir_prefix_chunkPath_iff]
        exact fun he => hpne (he.symm ▸ rfl)
      rw [if_neg hnpre]
      exact hpres


theorem initializeUpload_preserves_inv (faults : Path → Bool) (st : ServerState)
    (uploadId fileName : String) (fileSize : Nat) (fileType : String)
    (totalChunks now : Nat) (h : sessionsWF st ∧ chunkFilesStaged st) :
    sessionsWF (initializeUpload faults st uploadId fileName fileSize
        fileType totalChunks now).1
      ∧ chunkFilesStaged (initializeUpload faults st uploadId fileName fileSize
        fileType totalChunks now).1 := by
  obtain ⟨hwf, hst⟩ := h
  unfold initializeUpload
  by_cases hf : faults (uploadsDir ++ [uploadId]) = true
  · rw [if_pos hf]
    exact ⟨hwf, hst⟩
  · rw [if_neg hf]
    constructor
    · intro p hp
      rcases mem_setA hp with hold | hnew
      · exact hwf p hold
      · rw [hnew]
    · intro p hp i hi
      rcases mem_setA hp with hold | hnew
      · exact hst p hold i hi
      · rw [hnew] at hi
        exact absurd hi (Finset.not_mem_empty i)

theorem saveChunkOkState_preserves_inv (st : ServerState) (uploadId : String)
    (session : UploadSession) (i : Nat) (data : List Nat) (now : Nat)
    (hl : getA st.sessions uploadId = some session)
    (h : sessionsWF st ∧ chunkFilesStaged st) :
    sessionsWF (saveChunkOkState st uploadId session i data now)
      ∧ chunkFilesStaged (saveChunkOkState st uploadId session i data now) := by
  obtain ⟨hwf, hst⟩ := h
  have hmem := getA_mem hl
  unfold saveChunkOkState
  constructor
  · intro p hp
    rcases mem_setA hp with hold | hnew
    · exact hwf p hold
    · rw [hnew]
      exact hwf (uploadId, session) hmem
  · intro p hp j hj
    rcases mem_setA hp with hold | hnew
    · exact getA_writeFile_isSome _ _ _ _ (hst p hold j hj)
    · rw [hnew] at hj ⊢
      simp only at hj ⊢
      rcases Finset.mem_insert.mp hj with hji | hjS
      · subst hji
        simp [FS.writeFile, getA_setA_self]
      · exact getA_writeFile_isSome _ _ _ _
          (hst (uploadId, session) hmem j hjS)

theorem saveChunk_preserves_inv (faults : Path → Bool) (st : ServerState)
    (uploadId : String) (ci : Int) (data : List Nat) (now : Nat)
    (h : sessionsWF st ∧ chunkFilesStaged st) :
    sessionsWF (saveChunk faults st uploadId ci data now).1
      ∧ chunkFilesStaged (saveChunk faults st uploadId ci data now).1 := by
  cases hl : getA st.sessions uploadId with
  | none =>
    have h1 : (saveChunk faults st uploadId ci data now).1 = st := by
      simp [saveChunk, hl]
    rw [h1]
    exact h
  | some session =>
    by_cases hrange : ci < 0 ∨ (session.totalChunks : Int) ≤ ci
    · have h1 : (saveChunk faults st uploadId ci data now).1 = st := by
        simp [saveChunk, hl, hrange]
      rw [h1]
      exact h
    · by_cases hf : faults (chunkPath session.tempDir ci.toNat) = true
      · have h1 : (saveChunk faults st uploadId ci data now).1 = st := by
          simp [saveChunk, hl, hrange, hf]
        rw [h1]
        exact h
      · have h0 : 0 ≤ ci := by omega
        have hlt : ci < (session.totalChunks : Int) := by omega
        have h1 : (saveChunk faults st uploadId ci data now).1
            = saveChunkOkState st uploadId session ci.toNat data now := by
          rw [saveChunk_ok_eq faults st uploadId ci data now session hl h0 hlt
            (Bool.not_eq_true _ ▸ hf)]
        rw [h1]
        exact saveChunkOkState_preserves_inv st uploadId session ci.toNat
          data now hl h

theorem finalizeUpload_preserves_inv (faults : Path → Bool) (st : ServerState)
    (uploadId : String) (outputDir : Path) (newUuid : String)
    (h : sessionsWF st ∧ chunkFilesStaged st) :
    sessionsWF (finalizeUpload faults st uploadId outputDir newUuid).1
      ∧ chunkFilesStaged (finalizeUpload faults st uploadId outputDir newUuid).1 := by
  obtain ⟨hwf, hst⟩ := h
  cases hl : getA st.sessions uploadId with
  | none =>
    have h1 : (finalizeUpload faults st uploadId outputDir newUuid).1 = st := by
      simp [finalizeUpload, hl]
    rw [h1]
    exact ⟨hwf, hst⟩
  | some session =>
    by_cases hcard : session.uploadedChunks.card ≠ session.totalChunks
    · have h1 : (finalizeUpload faults st uploadId outputDir newUuid).1 = st := by
        simp [finalizeUpload, hl, hcard]
      rw [h1]
      exact ⟨hwf, hst⟩
    · have hmono : sessionsWF
          (⟨st.sessions, (mergeChunks faults (st.fs.mkdir outputDir) session
            (outputDir ++ [newUuid ++ "-" ++ session.fileName])).1⟩ : ServerState)
          ∧ chunkFilesStaged
          (⟨st.sessions, (mergeChunks faults (st.fs.mkdir outputDir) session
            (outputDir ++ [newUuid ++ "-" ++ session.fileName])).1⟩ : ServerState) := by
        constructor
        · intro p hp
          exact hwf p hp
        · intro p hp i hi
          exact mergeChunks_preserves_isSome _ _ _ _ _ (hst p hp i hi)
      cases hm : (mergeChunks faults (st.fs.mkdir outputDir) session
          (outputDir ++ [newUuid ++ "-" ++ session.fileName])).2 with
      | error e =>
        have h1 : (finalizeUpload faults st uploadId outputDir newUuid).1
            = ⟨st.sessions, (mergeChunks faults (st.fs.mkdir outputDir) session
                (outputDir ++ [newUuid ++ "-" ++ session.fileName])).1⟩ := by
          simp [finalizeUpload, hl, hcard, hm]
        rw [h1]
        exact hmono
      | ok u =>
        have h1 : (finalizeUpload faults st uploadId outputDir newUuid).1
            = cleanupSession
                ⟨st.sessions, (mergeChunks faults (st.fs.mkdir outputDir) session
                  (outputDir ++ [newUuid ++ "-" ++ session.fileName])).1⟩ uploadId := by
          simp [finalizeUpload, hl, hcard, hm]
        rw [h1]
        exact cleanupSession_preserves_inv _ _ hmono

theorem cancelUpload_preserves_inv (st : ServerState) (uploadId : String)
    (h : sessionsWF st ∧ chunkFilesStaged st) :
    sessionsWF (cancelUpload st uploadId)
      ∧ chunkFilesStaged (cancelUpload st uploadId) := by
  unfold cancelUpload
  cases hl : getA st.sessions uploadId with
  | none => exact h
  | some session => exact cleanupSession_preserves_inv st uploadId h

theorem cleanupStaleUploads_preserves_inv (st : ServerState) (now : Nat)
    (h : sessionsWF st ∧ chunkFilesStaged st) :
    sessionsWF (cleanupStaleUploads st now)
      ∧ chunkFilesStaged (cleanupStaleUploads st now) := by
  unfold cleanupStaleUploads
  generalize st.sessions.filter (fun p => decide (ONE_DAY < now - p.2.lastActivity)) = l
  induction l generalizing st with
  | nil => exact h
  | cons p t ih =>
    rw [List.foldl_cons]
    exact ih _ (cleanupSession_preserves_inv st p.1 h)

/-- C10: in every reachable server state every index recorded in a
session's `uploadedChunks` has a staged chunk file on disk at
`chunkPath tempDir index` — `saveChunk` completes the write before
recording the index, so `mergeChunks` can rely on the file being
present. -/
theorem reachable_chunkFilesStaged (st : ServerState) (h : Reachable st) :
    chunkFilesStaged st := by
  suffices hinv : sessionsWF st ∧ chunkFilesStaged st from hinv.2
  induction h with
  | start fs => exact ⟨fun p hp => absurd hp (List.not_mem_nil p),
      fun p hp => absurd hp (List.not_mem_nil p)⟩
  | init faults st uploadId fileName fileSize fileType totalChunks now _ ih =>
    exact initializeUpload_preserves_inv _ _ _ _ _ _ _ _ ih
  | save faults st uploadId chunkIndex chunkData now _ ih =>
    exact saveChunk_preserves_inv _ _ _ _ _ _ ih
  | finalize faults st uploadId outputDir newUuid _ ih =>
    exact finalizeUpload_preserves_inv _ _ _ _ _ ih
  | cancel st uploadId _ ih => exact cancelUpload_preserves_inv _ _ ih
  | reap st now _ ih => exact cleanupStaleUploads_preserves_inv _ _ ih


/-- C1: evaluating `finalizeUpload` at a complete two-chunk session
whose chunk-1 read faults during `mergeChunks`: the error is propagated
and the session and its staging area are untouched, but the partially
written output file (holding exactly chunk 0's bytes) is left on disk —
the code closes the write stream without removing the partial artifact,
contradicting the claim's removal requirement. -/
theorem finalizeMergeError_leaves_partial_artifact :
    (finalizeUpload chunk1Fault exState3 "sid" uploadsDir "u1").2
      = .error "Failed to read chunk 1: EIO: i/o error, read"
    ∧ getA (finalizeUpload chunk1Fault exState3 "sid" uploadsDir "u1").1.fs.files
        (uploadsDir ++ ["u1-book.txt"]) = some [1, 2, 3]
    ∧ (finalizeUpload chunk1Fault exState3 "sid" uploadsDir "u1").1.sessions
        = exState3.sessions
    ∧ getA (finalizeUpload chunk1Fault exState3 "sid" uploadsDir "u1").1.fs.files
        (chunkPath (uploadsDir ++ ["sid"]) 0) = some [1, 2, 3]
    ∧ getA (finalizeUpload chunk1Fault exState3 "sid" uploadsDir "u1").1.fs.files
        (chunkPath (uploadsDir ++ ["sid"]) 1) = some [4, 5] := by
  exact ⟨rfl, rfl, rfl, rfl, rfl⟩

/-- C6: the planner does yield zero chunks for an empty file, but the
end-to-end upload of an empty file fails rather than completing: the
init controller's truthiness check `!fileSize || !totalChunks` treats
`0` as a missing field and rejects the request with 400, so the client
never reaches finalize. -/
theorem emptyFile_init_rejected :
    totalChunksOf 0 UPLOAD_CHUNK_SIZE = 0
    ∧ createChunkMetadata 0 UPLOAD_CHUNK_SIZE = []
    ∧ initializeUploadController [] noFaults exState0 "sid" 100
        ⟨"empty.txt", 0, some "text/plain", totalChunksOf 0 UPLOAD_CHUNK_SIZE⟩
      = (exState0,
          ⟨400, .message "Missing required fields: fileName, fileSize, totalChunks"⟩) := by
  exact ⟨rfl, rfl, rfl⟩

/-- C5 counterexample: an initialize request with every field present
and nonzero, no storage fault anywhere (`noFaults`), but whose file name
yields the title of an already-existing book, is rejected with 500
`"Book with the same title already exists"` and no session is created —
initialization does not fail *only* on storage allocation failure. -/
theorem initialize_duplicateTitle_counterexample :
    initializeUploadController ["mybook"] noFaults exState0 "sid" 100
        ⟨"mybook.txt", 10, none, 1⟩
      = (exState0, ⟨500, .message "Book with the same title already exists"⟩) := by
  exact rfl


/-- C5 (amended): an initialize request whose fields are present and
nonzero fails only on storage allocation failure *or* when a book with
the same title (derived from the file name) already exists; when neither
holds it creates a fresh session with an empty received-index set and
the staging directory derived from its own id — exclusive, since every
other session's staging directory is the one derived from its own,
different id — and responds 200 with the session id. -/
theorem initialize_success_conditions (bookTitles : List String)
    (faults : Path → Bool) (st : ServerState) (uploadId : String) (now : Nat)
    (req : InitRequest)
    (hwf : sessionsWF st)
    (hf1 : ¬ req.fileName = "") (hf2 : ¬ req.fileSize = 0)
    (hf3 : ¬ req.totalChunks = 0)
    (hdup : bookTitles.any (fun t => t = (getFileTitle req.fileName).1) = false)
    (hmk : faults (uploadsDir ++ [uploadId]) = false) :
    (initializeUploadController bookTitles faults st uploadId now req).2
      = ⟨200, .uploadIdBody uploadId⟩
    ∧ getA (initializeUploadController bookTitles faults st uploadId
        now req).1.sessions uploadId
      = some { id := uploadId, fileName := req.fileName,
               fileSize := req.fileSize,
               fileType := req.fileType.getD "application/octet-stream",
               totalChunks := req.totalChunks, uploadedChunks := ∅,
               tempDir := uploadsDir ++ [uploadId],
               createdAt := now, lastActivity := now }
    ∧ ∀ p ∈ (initializeUploadController bookTitles faults st uploadId
        now req).1.sessions,
        p.1 ≠ uploadId → p.2.tempDir ≠ uploadsDir ++ [uploadId] := by
  have hcond : ¬(req.fileName = "" ∨ req.fileSize = 0 ∨ req.totalChunks = 0) := by
    push_neg
    exact ⟨hf1, hf2, hf3⟩
  have hchk : checkExisting bookTitles (getFileTitle req.fileName).1 = .ok () := by
    simp [checkExisting, hdup]
  have hred : initializeUploadController bookTitles faults st uploadId now req
      = ({ sessions := setA st.sessions uploadId
             { id := uploadId, fileName := req.fileName,
               fileSize := req.fileSize,
               fileType := req.fileType.getD "application/octet-stream",
               totalChunks := req.totalChunks, uploadedChunks := ∅,
               tempDir := uploadsDir ++ [uploadId],
               createdAt := now, lastActivity := now },
           fs := st.fs.mkdir (uploadsDir ++ [uploadId]) },
          ⟨200, .uploadIdBody uploadId⟩) := by
    simp [initializeUploadController, hcond, hchk, initializeUpload, hmk]
  refine ⟨by rw [hred], ?_, ?_⟩
  · rw [hred]
    exact getA_setA_self _ _ _
  · rw [hred]
    intro p hp hne
    rcases mem_setA hp with hold | hnew
    · rw [hwf p hold]
      intro he
      apply hne
      simpa [uploadsDir] using he
    · rw [hnew] at hne
      exact absurd rfl hne

/-- Witness for C5's amended theorem at a concrete fresh request. -/
theorem initialize_success_conditions_witness :
    (initializeUploadController [] noFaults exState0 "sid" 100
        ⟨"book.txt", 5, some "text/plain", 2⟩).2
      = ⟨200, .uploadIdBody "sid"⟩ :=
  (initialize_success_conditions [] noFaults exState0 "sid" 100
    ⟨"book.txt", 5, some "text/plain", 2⟩
    (fun p hp => absurd hp (List.not_mem_nil p))
    (by decide) (by decide) (by decide) rfl rfl).1

/-- C9 counterexample: a chunk-upload request naming an unknown session,
and one carrying an out-of-range index for a known session, are both
client-caused yet answered with status 500, not 4xx. -/
theorem chunkError_status_counterexample :
    (uploadChunkController noFaults exState0 0 ⟨"nope", some 0, some [1]⟩).2
      = ⟨500, .message "Upload session not found"⟩
    ∧ (uploadChunkController noFaults exState1 101 ⟨"sid", some 7, some [9]⟩).2
      = ⟨500, .message "Invalid chunk index: 7"⟩ := by
  exact ⟨rfl, rfl⟩

/-- C9 (amended): every response of the chunk-upload controller is
200 `{success}`, 400 with a JSON `{message}` (only for requests missing
a required field), or 500 with a JSON `{message}` — and every `saveChunk`
rejection, including the client-caused "unknown session" and "invalid
chunk index", is reported as 500, e.g. an unknown session always yields
500 `"Upload session not found"`. -/
theorem chunkController_responses (faults : Path → Bool) (st : ServerState)
    (now : Nat) (req : ChunkRequest) :
    (((uploadChunkController faults st now req).2.status = 200
        ∧ (uploadChunkController faults st now req).2.body = .success)
      ∨ ((uploadChunkController faults st now req).2.status = 400
        ∧ ∃ m, (uploadChunkController faults st now req).2.body = .message m)
      ∨ ((uploadChunkController faults st now req).2.status = 500
        ∧ ∃ m, (uploadChunkController faults st now req).2.body = .message m))
    ∧ (req.chunkIndex.isSome → req.chunk.isSome → ¬ req.uploadId = "" →
        getA st.sessions req.uploadId = none →
        (uploadChunkController faults st now req).2
          = ⟨500, .message "Upload session not found"⟩) := by
  obtain ⟨uid, oci, och⟩ := req
  cases oci with
  | none =>
    refine ⟨Or.inr (Or.inl ⟨rfl,
      "Missing required fields: uploadId, chunkIndex, chunk", rfl⟩), ?_⟩
    intro hci
    exact absurd hci (by simp)
  | some ci =>
    cases och with
    | none =>
      refine ⟨Or.inr (Or.inl ⟨rfl,
        "Missing required fields: uploadId, chunkIndex, chunk", rfl⟩), ?_⟩
      intro _ hch
      exact absurd hch (by simp)
    | some data =>
      by_cases huid : uid = ""
      · constructor
        · subst huid
          exact Or.inr (Or.inl ⟨by simp [uploadChunkController],
            "Missing required fields: uploadId, chunkIndex, chunk",
            by simp [uploadChunkController]⟩)
        · intro _ _ hne
          exact absurd huid hne
      · have hred : uploadChunkController faults st now ⟨uid, some ci, some data⟩
            = (match (saveChunk faults st uid ci data now).2 with
                | .ok _ => ((saveChunk faults st uid ci data now).1,
                    ⟨200, .success⟩)
                | .error e => ((saveChunk faults st uid ci data now).1,
                    ⟨500, .message e⟩)) := by
          simp only [uploadChunkController]
          rw [if_neg huid]
        constructor
        · rw [hred]
          cases hsv : (saveChunk faults st uid ci data now).2 with
          | ok u => exact Or.inl ⟨by simp [hsv], by simp [hsv]⟩
          | error e => exact Or.inr (Or.inr ⟨by simp [hsv], e, by simp [hsv]⟩)
        · intro _ _ _ hnone
          have hsv : (saveChunk faults st uid ci data now).2
              = .error "Upload session not found" := by
            simp only at hnone
            simp [saveChunk, hnone]
          rw [hred, hsv]

/-- Witness for C9's amended theorem: the unknown-session request again,
through the general theorem. -/
theorem chunkController_responses_witness :
    (uploadChunkController noFaults exState0 0 ⟨"nope", some 0, some [1]⟩).2
      = ⟨500, .message "Upload session not found"⟩ :=
  (chunkController_responses noFaults exState0 0 ⟨"nope", some 0, some [1]⟩).2
    (by decide) (by decide) (by decide) rfl


/-- Witness for C7: finalizing the one-of-two-chunks session leaves the
state unchanged. -/
theorem finalize_missing_refusal_witness :
    (finalizeUpload noFaults exState2 "sid" uploadsDir "u1").1 = exState2 :=
  (finalize_missing_refusal noFaults exState2 "sid" uploadsDir "u1"
    exSession2 (fun _ => [9, 9]) 103 rfl (by decide) (by decide)
    (by decide)).2.1

/-- Witness for C8: re-sending chunk 0 of the concrete session leaves
the state exactly as after the first send. -/
theorem saveChunk_idempotent_witness :
    (saveChunk noFaults (saveChunk noFaults exState1 "sid" 0 [1, 2, 3] 101).1
        "sid" 0 [1, 2, 3] 101).1
      = (saveChunk noFaults exState1 "sid" 0 [1, 2, 3] 101).1 :=
  (saveChunk_idempotent noFaults exState1 "sid" 0 [1, 2, 3] 101 exSession1
    rfl (by decide) (by decide) rfl).1

/-- Witness for C10: the invariant holds in the concrete reachable state
`exState2`. -/
theorem reachable_chunkFilesStaged_witness : chunkFilesStaged exState2 :=
  reachable_chunkFilesStaged exState2
    (Reachable.save noFaults exState1 "sid" 0 [1, 2, 3] 101
      (Reachable.init noFaults exState0 "sid" "book.txt" 5 "text/plain" 2 100
        (Reachable.start ⟨[], []⟩)))

end AudiobookUpload
